import Mathlib

/-!
# Verification of the overtime timecard report pipeline

Shallow embedding of `src/Overtime_Code.py` (`load_data` output shape and
`generate_timecard_report`).  A loaded row is an `Entry`; `pd.to_numeric(...,
errors='coerce')` and `pd.to_datetime(..., errors='coerce')` mean the `hours`,
`regularHours` and `date` fields may be missing (`NaN`/`NaT`), modelled as
`Option`.  Dates are spreadsheet serial day numbers (origin 1899-12-30, one
unit = one day), so serial 1 = 1899-12-31, a Sunday.  Hours are modelled as
rationals in place of float64; the report's numeric-to-string rendering is
correspondingly `toString` on `ℚ`.

Pandas semantics embedded below, faithfully to the source:
* `groupby` drops rows whose grouping key is missing (`NaT` dates), and a
  grouped `sum` skips `NaN` values (an all-`NaN` group sums to 0);
* a grouped `mean` skips `NaN` values and is `NaN` when every value is `NaN`;
* Python's `max(0, x)` returns the first argument `0` when `x` is `NaN`,
  because `NaN > 0` is false;
* a left merge against a table with unique keys keeps the left rows
  one-to-one, with `NaN` (here `none`) where no right row matches;
* `to_csv` renders a missing value as the empty string.
-/

/-- A row of the DataFrame produced by `load_data`: columns Date, EmpID,
Hours, Pay Code, Location, Regular Hours.  `payCode` is already
lowercased/trimmed by the loader. -/
structure Entry where
  date : Option Int
  empId : String
  hours : Option ℚ
  payCode : String
  location : String
  regularHours : Option Rat
deriving DecidableEq, Repr

/-- `df['Date'].dt.to_period('W-SAT').apply(lambda r: r.start_time)`:
the start (Sunday) of the Saturday-ending week containing serial day `d`.
Serial 1 is Sunday 1899-12-31, so `(d - 1) % 7` is the day-of-week index
with Sunday = 0. -/
def weekStart (d : Int) : Int := d - (d - 1) % 7

/-- Grouping key (Location, EmpID, Week Start). -/
structure Key where
  location : String
  empId : String
  weekStart : Int
deriving DecidableEq, Repr

/-- The week key a row is grouped under; `none` when Date is `NaT`
(pandas `groupby` then drops the row). -/
def keyOf (e : Entry) : Option Key :=
  e.date.map (fun d => ⟨e.location, e.empId, weekStart d⟩)

/-- The (week key, date) pair a row is grouped under for daily aggregation. -/
def dayKeyOf (e : Entry) : Option (Key × Int) :=
  match e.date with
  | some d => some (⟨e.location, e.empId, weekStart d⟩, d)
  | none => none

/-- A grouped `['Hours'].sum()`: `NaN` hours are skipped, i.e. contribute 0. -/
def sumHours (l : List Entry) : ℚ := (l.map (fun e => e.hours.getD 0)).sum

/-- The rows of the group with key `k` in a groupby on
`['Location','EmpID','Week Start']`. -/
def entriesFor (k : Key) (es : List Entry) : List Entry :=
  es.filter (fun e => decide (keyOf e = some k))

/-- The rows of the group with key `(k, d)` in a groupby on
`['Location','EmpID','Week Start','Date']`. -/
def entriesOn (k : Key) (d : Int) (es : List Entry) : List Entry :=
  es.filter (fun e => decide (keyOf e = some k ∧ e.date = some d))

/-- `daily_total`: Total_Hours for the day group `(k, d)`. -/
def Total_Hours (k : Key) (d : Int) (es : List Entry) : ℚ :=
  sumHours (entriesOn k d es)

/-- `daily_reg` after the left merge and `fillna(0)`: sum of hours of the
day's rows with pay code "regular" (0 when there are none). -/
def Reg (k : Key) (d : Int) (es : List Entry) : ℚ :=
  sumHours ((entriesOn k d es).filter (fun e => decide (e.payCode = "regular")))

/-- `daily_ot` after the left merge and `fillna(0)`: sum of hours of the
day's rows with pay code "overtime" (0 when there are none). -/
def OT_Paid (k : Key) (d : Int) (es : List Entry) : ℚ :=
  sumHours ((entriesOn k d es).filter (fun e => decide (e.payCode = "overtime")))

/-- `weekly_avg_reg` / `Sched_Reg`: the groupwise mean of the Regular Hours
column over the week, skipping `NaN`s; `none` (pandas `NaN`) when every
Regular Hours value in the week is missing. -/
def Sched_Reg (k : Key) (es : List Entry) : Option ℚ :=
  let vals := (entriesFor k es).filterMap (fun e => e.regularHours)
  if vals = [] then none else some (vals.sum / (vals.length : ℚ))

/-- `daily['Proj_OT'] = max(0, Total_Hours - Sched_Reg)`.  When `Sched_Reg`
is `NaN`, `Total_Hours - Sched_Reg` is `NaN` and Python's `max(0, nan)`
returns its first argument `0`. -/
def Proj_OT (k : Key) (d : Int) (es : List Entry) : ℚ :=
  match Sched_Reg k es with
  | some s => max 0 (Total_Hours k d es - s)
  | none => 0

/-- The distinct dates of week `k` appearing in the daily table. -/
def daysOf (k : Key) (es : List Entry) : List Int :=
  ((entriesFor k es).filterMap (fun e => e.date)).dedup

/-- The distinct `(Location, EmpID, Week Start, Date)` group keys of the
daily table (rows with missing dates are dropped by `groupby`). -/
def dailyKeys (es : List Entry) : List (Key × Int) :=
  (es.filterMap dayKeyOf).dedup

/-- The distinct `(Location, EmpID, Week Start)` index keys of the pivot,
hence of the final report (the left merge with `weekly_agg`, whose keys are
unique, keeps pivot rows one-to-one). -/
def reportKeys (es : List Entry) : List Key :=
  ((dailyKeys es).map Prod.fst).dedup

/-- `reg_week` after `fillna(0)`: weekly sum of hours with pay code
"regular". -/
def weeklyRegularHours (k : Key) (es : List Entry) : ℚ :=
  sumHours ((entriesFor k es).filter (fun e => decide (e.payCode = "regular")))

/-- `ot_week` after `fillna(0)`: weekly sum of hours with pay code
"overtime". -/
def weeklyOTPaid (k : Key) (es : List Entry) : ℚ :=
  sumHours ((entriesFor k es).filter (fun e => decide (e.payCode = "overtime")))

/-- `weekly_agg['Weekly Total Hours'] = Weekly Regular Hours + Weekly OT
Paid`. -/
def weeklyTotalHours (k : Key) (es : List Entry) : ℚ :=
  weeklyRegularHours k es + weeklyOTPaid k es

/-- `weekly_proj_ot`: sum of the daily Proj_OT values over the week. -/
def weeklyProjOT (k : Key) (es : List Entry) : ℚ :=
  ((daysOf k es).map (fun d => Proj_OT k d es)).sum

/-- `compute_ot_owed` from the source, verbatim as a pure function of the
three weekly fields it reads. -/
def compute_ot_owed (weeklyTotal weeklyOT weeklyProj : ℚ) : ℚ :=
  if weeklyTotal ≤ 40 then weeklyProj
  else
    if 0 < weeklyOT - weeklyProj then 0 else |weeklyOT - weeklyProj|

/-- The Overtime Owed value of week `k`. -/
def overtimeOwed (k : Key) (es : List Entry) : ℚ :=
  compute_ot_owed (weeklyTotalHours k es) (weeklyOTPaid k es) (weeklyProjOT k es)

/-- Whether week `k` has a row in `weekly_agg`: the outer merge of
`reg_week` and `ot_week` contains exactly the keys with at least one
"regular"- or "overtime"-coded row. -/
def hasRegOrOT (k : Key) (es : List Entry) : Bool :=
  (entriesFor k es).any fun e =>
    decide (e.payCode = "regular") || decide (e.payCode = "overtime")

/-- The `weekly_agg` row for key `k` (its five computed columns). -/
def weeklyAggRow (k : Key) (es : List Entry) : ℚ × ℚ × ℚ × ℚ × ℚ :=
  (weeklyRegularHours k es, weeklyOTPaid k es, weeklyTotalHours k es,
    weeklyProjOT k es, overtimeOwed k es)

/-- The five weekly columns of the report row for key `k`: the left merge
of the pivot with `weekly_agg` leaves them `NaN` (`none`) when `k` has no
`weekly_agg` row. -/
def weeklyFields (k : Key) (es : List Entry) : Option (ℚ × ℚ × ℚ × ℚ × ℚ) :=
  if hasRegOrOT k es then some (weeklyAggRow k es) else none

/-- `day_order` from the source. -/
def day_order : List String :=
  ["Sunday", "Monday", "Tuesday", "Wednesday", "Thursday", "Friday", "Saturday"]

/-- `%a` weekday abbreviations, Sunday-indexed like `day_order`. -/
def dayAbbrevs : List String := ["Sun", "Mon", "Tue", "Wed", "Thu", "Fri", "Sat"]

/-- Day-of-week index of serial day `d`, Sunday = 0 (serial 1 is a Sunday). -/
def dayIndex (d : Int) : Nat := ((d - 1) % 7).toNat

/-- `dt.day_name()` for serial day `d`. -/
def dayName (d : Int) : String := day_order.getD (dayIndex d) ""

/-- Serial day number to civil (year, month, day); serial 25569 is
1970-01-01, then the standard civil-from-days conversion.  (All divisions
are on nonnegative operands after the era shift, so truncated division
agrees with floor division.) -/
def civilOfSerial (s : Int) : Int × Int × Int :=
  let z := s - 25569 + 719468
  let era := (if 0 ≤ z then z else z - 146096) / 146097
  let doe := z - era * 146097
  let yoe := (doe - doe / 1460 + doe / 36524 - doe / 146096) / 365
  let doy := doe - (365 * yoe + yoe / 4 - yoe / 100)
  let mp := (5 * doy + 2) / 153
  let dd := doy - (153 * mp + 2) / 5 + 1
  let m := mp + (if mp < 10 then 3 else -9)
  (yoe + era * 400 + (if m ≤ 2 then 1 else 0), m, dd)

/-- Two-digit zero-padded rendering of a (nonnegative) number. -/
def pad2 (n : Int) : String := if n < 10 then "0" ++ toString n else toString n

/-- `strftime('%m/%d')` for a serial day. -/
def fmtMonthDay (d : Int) : String :=
  let c := civilOfSerial d
  pad2 c.2.1 ++ "/" ++ pad2 c.2.2

/-- ISO date rendering of a serial day (how `to_csv` writes a midnight
Timestamp). -/
def fmtDateISO (d : Int) : String :=
  let c := civilOfSerial d
  toString c.1 ++ "-" ++ pad2 c.2.1 ++ "-" ++ pad2 c.2.2

/-- `astype(str)` on a numeric value (float64 rendering abstracted to the
rational's string form). -/
def qStr (q : ℚ) : String := toString q

/-- `daily['Day Info']`: the per-day summary string. -/
def dayInfo (k : Key) (d : Int) (es : List Entry) : String :=
  dayAbbrevs.getD (dayIndex d) "" ++ " " ++ fmtMonthDay d ++ ": " ++
    qStr (Total_Hours k d es) ++ " hrs (Reg: " ++ qStr (Reg k d es) ++
    ", OT Paid: " ++ qStr (OT_Paid k d es) ++ ", Proj OT: " ++
    qStr (Proj_OT k d es) ++ ")"

/-- The pivot cell of row `k` and weekday column `c`: the Day Info of the
week's date falling on that weekday (`aggfunc='first'`; within one
Sunday-to-Saturday week each weekday occurs at most once), `none` when the
week has no entry on that weekday.  Columns absent from the pivot are
filled with `""` by the source and cells left `NaN` by the pivot are
written as `""` by `to_csv`; both render as `""` below. -/
def pivotCell (k : Key) (es : List Entry) (c : String) : Option String :=
  ((daysOf k es).find? (fun d => decide (dayName d = c))).map fun d => dayInfo k d es

/-- How `to_csv` writes the five weekly columns: `NaN` becomes `""`. -/
def renderWeekly : Option (ℚ × ℚ × ℚ × ℚ × ℚ) → List String
  | none => ["", "", "", "", ""]
  | some (a, b, c, d, e) => [qStr a, qStr b, qStr c, qStr d, qStr e]

/-- `final_cols` from the source. -/
def final_cols : List String :=
  ["EmpID", "Location", "Week Start"] ++ day_order ++
    ["Weekly Regular Hours", "Weekly OT Paid", "Weekly Total Hours",
      "Weekly Proj OT", "Overtime Owed"]

/-- The rendered report row for key `k`, in `final_cols` order. -/
def reportRow (k : Key) (es : List Entry) : List String :=
  [k.empId, k.location, fmtDateISO k.weekStart] ++
    day_order.map (fun c => (pivotCell k es c).getD "") ++
    renderWeekly (weeklyFields k es)

/-! Concrete sample rows used to instantiate the theorems below. -/

/-- An 8-hour "regular" row on serial day 10 (a Tuesday; its week starts on
Sunday, serial 8). -/
def eReg : Entry := ⟨some 10, "E1", some 8, "regular", "L1", some 8⟩

/-- A 45-hour "regular" row on serial day 11, same week. -/
def eBig : Entry := ⟨some 11, "E1", some 45, "regular", "L1", some 8⟩

/-- A row with a pay code that is neither "regular" nor "overtime". -/
def eHol : Entry := ⟨some 10, "E1", some 5, "holiday", "L1", some 8⟩

/-- A row whose Hours failed `to_numeric` (missing). -/
def eNA : Entry := ⟨some 10, "E1", none, "regular", "L1", some 8⟩

/-- A row whose Date failed `to_datetime` (missing). -/
def eNoDate : Entry := ⟨none, "E1", some 8, "regular", "L1", some 8⟩

/-- A row whose Regular Hours is missing. -/
def eNoSched : Entry := ⟨some 10, "E1", some 8, "regular", "L1", none⟩

/-- The week key of serial days 8..14 for employee E1 at L1. -/
def kW : Key := ⟨"L1", "E1", 8⟩

/-! Helper lemmas about `sumHours`. -/

theorem sumHours_nil : sumHours [] = 0 := rfl

theorem sumHours_cons (e : Entry) (l : List Entry) :
    sumHours (e :: l) = e.hours.getD 0 + sumHours l := by
  simp [sumHours]

theorem sumHours_append (l₁ l₂ : List Entry) :
    sumHours (l₁ ++ l₂) = sumHours l₁ + sumHours l₂ := by
  simp [sumHours]

theorem sumHours_filter_disjoint (p q : Entry → Bool)
    (hpq : ∀ e, ¬(p e = true ∧ q e = true)) (l : List Entry) :
    sumHours (l.filter p) + sumHours (l.filter q) =
      sumHours (l.filter fun e => p e || q e) := by
  induction l with
  | nil => simp [sumHours]
  | cons a l ih =>
    cases hp : p a with
    | true =>
      cases hq : q a with
      | true => exact absurd ⟨hp, hq⟩ (hpq a)
      | false =>
        simp only [List.filter_cons, hp, hq, Bool.true_or, if_pos, if_neg,
          Bool.false_eq_true, not_false_iff, sumHours_cons]
        rw [← ih]; ring
    | false =>
      cases hq : q a with
      | true =>
        simp only [List.filter_cons, hp, hq, Bool.false_or, if_pos, if_neg,
          Bool.false_eq_true, not_false_iff, sumHours_cons]
        rw [← ih]; ring
      | false =>
        simp only [List.filter_cons, hp, hq, Bool.false_or, if_neg,
          Bool.false_eq_true, not_false_iff]
        exact ih

/-- C1: `compute_ot_owed` follows the piecewise rule: when
`weekly_total_hours ≤ 40` (including exactly 40) the result is
`weekly_projected_overtime`; when `weekly_total_hours > 40` and
`diff = weekly_overtime_paid − weekly_projected_overtime` is positive the
result is 0, and when `diff ≤ 0` the result is
`weekly_projected_overtime − weekly_overtime_paid`. -/
theorem overtime_owed_piecewise (es : List Entry) (k : Key) :
    (weeklyTotalHours k es ≤ 40 → overtimeOwed k es = weeklyProjOT k es) ∧
    (40 < weeklyTotalHours k es →
      (0 < weeklyOTPaid k es - weeklyProjOT k es → overtimeOwed k es = 0) ∧
      (weeklyOTPaid k es - weeklyProjOT k es ≤ 0 →
        overtimeOwed k es = weeklyProjOT k es - weeklyOTPaid k es)) := by
  unfold overtimeOwed compute_ot_owed
  constructor
  · intro h; rw [if_pos h]
  · intro h
    have h' : ¬weeklyTotalHours k es ≤ 40 := not_le.mpr h
    refine ⟨fun hd => ?_, fun hd => ?_⟩
    · rw [if_neg h', if_pos hd]
    · rw [if_neg h', if_neg (not_lt.mpr hd), abs_of_nonpos hd]
      ring

/-- C1 witness: both branches of the piecewise rule instantiated on
concrete one-row weeks. -/
theorem overtime_owed_piecewise_witness :
    overtimeOwed kW [eReg] = weeklyProjOT kW [eReg] ∧
    overtimeOwed kW [eBig] = weeklyProjOT kW [eBig] - weeklyOTPaid kW [eBig] := by
  constructor
  · refine (overtime_owed_piecewise [eReg] kW).1 ?_
    norm_num [weeklyTotalHours, weeklyRegularHours, weeklyOTPaid, entriesFor,
      keyOf, weekStart, sumHours, eReg, kW, List.filter_cons, decide_eq_true_eq,
      show ("regular" : String) ≠ "overtime" from by decide]
  · have ht : (40 : ℚ) < weeklyTotalHours kW [eBig] := by
      norm_num [weeklyTotalHours, weeklyRegularHours, weeklyOTPaid, entriesFor,
        keyOf, weekStart, sumHours, eBig, kW, List.filter_cons, decide_eq_true_eq,
        show ("regular" : String) ≠ "overtime" from by decide]
    refine ((overtime_owed_piecewise [eBig] kW).2 ht).2 ?_
    have hot : weeklyOTPaid kW [eBig] = 0 := by
      norm_num [weeklyOTPaid, entriesFor, keyOf, weekStart, sumHours, eBig, kW,
        List.filter_cons, decide_eq_true_eq,
        show ("regular" : String) ≠ "overtime" from by decide]
    have hproj : weeklyProjOT kW [eBig] = 37 := by
      have hd : daysOf kW [eBig] = [11] := by decide
      have hs : Sched_Reg kW [eBig] = some 8 := by
        norm_num [Sched_Reg, entriesFor, keyOf, weekStart, eBig, kW,
          List.filter_cons, decide_eq_true_eq, List.filterMap_cons]
      have htot : Total_Hours kW 11 [eBig] = 45 := by
        norm_num [Total_Hours, entriesOn, keyOf, weekStart, sumHours, eBig, kW,
          List.filter_cons, decide_eq_true_eq]
      simp [weeklyProjOT, hd, Proj_OT, hs, htot]
      norm_num
    rw [hot, hproj]; norm_num

/-- C3 (amended): every `weekly_agg` row's Overtime Owed is ≥ 0 (the
reconciler output is nonnegative for every week key); the parenthetical
equivalence with report rows fails for weeks absent from `weekly_agg`,
see the counterexample. -/
theorem overtime_owed_nonneg (es : List Entry) (k : Key) :
    0 ≤ overtimeOwed k es := by
  have hproj : 0 ≤ weeklyProjOT k es := by
    unfold weeklyProjOT
    refine List.sum_nonneg ?_
    intro x hx
    rw [List.mem_map] at hx
    obtain ⟨d, _, rfl⟩ := hx
    unfold Proj_OT
    cases Sched_Reg k es with
    | none => exact le_refl 0
    | some s => exact le_max_left 0 _
  unfold overtimeOwed compute_ot_owed
  split
  · exact hproj
  · split
    · exact le_refl 0
    · exact abs_nonneg _

/-- C3 counterexample: a week whose only row is "holiday"-coded has a
report row (its key is in the pivot index) whose five weekly columns,
Overtime Owed included, are missing — not a scalar ≥ 0 — because the key
has no `weekly_agg` row and the merge is a left merge. -/
theorem report_owed_missing_cex :
    kW ∈ reportKeys [eHol] ∧ weeklyFields kW [eHol] = none := by
  constructor
  · decide
  · simp [weeklyFields, hasRegOrOT, entriesFor, keyOf, weekStart, eHol, kW,
      List.filter_cons,
      show ("holiday" : String) ≠ "regular" from by decide,
      show ("holiday" : String) ≠ "overtime" from by decide]

/-- C4: Weekly Total Hours is Weekly Regular Hours + Weekly OT Paid, where
those sum exactly the "regular"-coded and "overtime"-coded rows of the
week; equivalently the total equals the weekly hours-sum restricted to
rows coded "regular" or "overtime", so any other pay code is excluded
from this identity. -/
theorem weekly_total_decomposition (es : List Entry) (k : Key) :
    weeklyTotalHours k es = weeklyRegularHours k es + weeklyOTPaid k es ∧
    weeklyRegularHours k es =
      sumHours ((entriesFor k es).filter fun e => decide (e.payCode = "regular")) ∧
    weeklyOTPaid k es =
      sumHours ((entriesFor k es).filter fun e => decide (e.payCode = "overtime")) ∧
    weeklyTotalHours k es =
      sumHours ((entriesFor k es).filter fun e =>
        decide (e.payCode = "regular" ∨ e.payCode = "overtime")) := by
  refine ⟨rfl, rfl, rfl, ?_⟩
  have hpq : ∀ e : Entry,
      ¬((decide (e.payCode = "regular") = true) ∧
        (decide (e.payCode = "overtime") = true)) := by
    intro e ⟨h1, h2⟩
    rw [decide_eq_true_eq] at h1 h2
    rw [h1] at h2
    exact absurd h2 (by decide)
  have h := sumHours_filter_disjoint (fun e => decide (e.payCode = "regular"))
    (fun e => decide (e.payCode = "overtime")) hpq (entriesFor k es)
  have hfun :
      (fun e : Entry => decide (e.payCode = "regular") || decide (e.payCode = "overtime")) =
        fun e : Entry => decide (e.payCode = "regular" ∨ e.payCode = "overtime") := by
    funext e
    by_cases h1 : e.payCode = "regular" <;> by_cases h2 : e.payCode = "overtime" <;>
      simp [h1, h2]
  rw [weeklyTotalHours, weeklyRegularHours, weeklyOTPaid, h, hfun]

/-- C6: the Week Start assigned to a row with a parseable date is a pure
function of the date alone: it is the Sunday on or before the date (the
date itself when that date is a Sunday), i.e. the start of the
Saturday-ending week containing it, and any row with the same date gets
the same week start. -/
theorem week_start_spec (e : Entry) (d : Int) (h : e.date = some d) :
    keyOf e = some ⟨e.location, e.empId, weekStart d⟩ ∧
    (weekStart d - 1) % 7 = 0 ∧
    weekStart d ≤ d ∧ d ≤ weekStart d + 6 ∧
    ((d - 1) % 7 = 0 → weekStart d = d) ∧
    ∀ e' : Entry, e'.date = some d →
      (keyOf e').map Key.weekStart = some (weekStart d) := by
  refine ⟨by simp [keyOf, h], ?_, ?_, ?_, ?_, ?_⟩
  · unfold weekStart; omega
  · unfold weekStart; omega
  · unfold weekStart; omega
  · intro h0; unfold weekStart; omega
  · intro e' h'
    simp [keyOf, h']

/-- C6 witness: the sample Tuesday row (serial day 10) is keyed to week
start serial 8, the preceding Sunday. -/
theorem week_start_spec_witness :
    keyOf eReg = some ⟨eReg.location, eReg.empId, weekStart 10⟩ :=
  (week_start_spec eReg 10 rfl).1

/-- C7: daily projected overtime is `max(0, Total_Hours − Sched_Reg)`
whenever the week's Sched_Reg is a number, `Total_Hours` being the sum
over all pay codes of the day; and it is nonnegative in every case. -/
theorem proj_ot_spec (es : List Entry) (k : Key) (d : Int) :
    0 ≤ Proj_OT k d es ∧
    Total_Hours k d es = sumHours (entriesOn k d es) ∧
    ∀ s, Sched_Reg k es = some s →
      Proj_OT k d es = max 0 (Total_Hours k d es - s) := by
  refine ⟨?_, rfl, ?_⟩
  · unfold Proj_OT
    cases Sched_Reg k es with
    | none => exact le_refl 0
    | some s => exact le_max_left 0 _
  · intro s hs
    unfold Proj_OT
    rw [hs]

/-- C7 witness: the projection formula evaluated on the sample week, whose
Sched_Reg is 8. -/
theorem proj_ot_spec_witness :
    Proj_OT kW 10 [eReg] = max 0 (Total_Hours kW 10 [eReg] - 8) := by
  refine (proj_ot_spec [eReg] kW 10).2.2 8 ?_
  norm_num [Sched_Reg, entriesFor, keyOf, weekStart, eReg, kW, List.filter_cons,
    decide_eq_true_eq, List.filterMap_cons]

/-- C2 (amended): a week's Sched_Reg is the arithmetic mean of the
non-missing Regular Hours values of the week's rows; when every Regular
Hours value of the week is missing, Sched_Reg is itself missing (pandas
`NaN`), and each day's Proj_OT then evaluates to 0 (Python's
`max(0, total − NaN)` is 0), not to the day's total hours. -/
theorem sched_reg_mean_spec (es : List Entry) (k : Key) :
    ((entriesFor k es).filterMap (fun e => e.regularHours) ≠ [] →
      Sched_Reg k es =
        some (((entriesFor k es).filterMap (fun e => e.regularHours)).sum /
          (((entriesFor k es).filterMap (fun e => e.regularHours)).length : ℚ))) ∧
    ((entriesFor k es).filterMap (fun e => e.regularHours) = [] →
      Sched_Reg k es = none ∧ ∀ d, Proj_OT k d es = 0) := by
  constructor
  · intro h
    simp only [Sched_Reg, if_neg h]
  · intro h
    have hs : Sched_Reg k es = none := by simp only [Sched_Reg, if_pos h]
    refine ⟨hs, fun d => ?_⟩
    rw [Proj_OT, hs]

/-- C2 witness: the sample week with Regular Hours 8 has Sched_Reg equal
to the mean, and the all-missing sample week has Sched_Reg missing. -/
theorem sched_reg_mean_spec_witness :
    Sched_Reg kW [eReg] =
      some (((entriesFor kW [eReg]).filterMap (fun e => e.regularHours)).sum /
        (((entriesFor kW [eReg]).filterMap (fun e => e.regularHours)).length : ℚ)) ∧
    Sched_Reg kW [eNoSched] = none :=
  ⟨(sched_reg_mean_spec [eReg] kW).1 (by decide),
    ((sched_reg_mean_spec [eNoSched] kW).2 (by decide)).1⟩

/-- C2 counterexample: a week whose single row works 8 hours but has a
missing Regular Hours value gets Proj_OT 0, not the claimed
`total_hours` = 8. -/
theorem sched_reg_allmissing_cex :
    (∀ e ∈ [eNoSched], e.regularHours = none) ∧
    Total_Hours kW 10 [eNoSched] = 8 ∧
    Proj_OT kW 10 [eNoSched] = 0 := by
  refine ⟨by decide, ?_, ?_⟩
  · norm_num [Total_Hours, entriesOn, keyOf, weekStart, sumHours, eNoSched, kW,
      List.filter_cons, decide_eq_true_eq]
  · have hs : Sched_Reg kW [eNoSched] = none := by decide
    rw [Proj_OT, hs]

/-- C9: each (location, employee, week-start) key occurring among the
parseable-date rows appears exactly once in the report's row index, and
no other key appears: the index is duplicate-free, membership is
equivalent to having at least one entry in that week, and the count of a
key is 1 or 0 accordingly. -/
theorem report_rows_roundtrip (es : List Entry) (k : Key) :
    (reportKeys es).Nodup ∧
    (k ∈ reportKeys es ↔ ∃ e ∈ es, keyOf e = some k) ∧
    (reportKeys es).count k = if ∃ e ∈ es, keyOf e = some k then 1 else 0 := by
  have hnodup : (reportKeys es).Nodup := List.nodup_dedup _
  have hmem : k ∈ reportKeys es ↔ ∃ e ∈ es, keyOf e = some k := by
    rw [reportKeys, List.mem_dedup, List.mem_map]
    constructor
    · rintro ⟨⟨k', d⟩, hmem, rfl⟩
      rw [dailyKeys, List.mem_dedup, List.mem_filterMap] at hmem
      obtain ⟨e, he, hde⟩ := hmem
      refine ⟨e, he, ?_⟩
      cases hd : e.date with
      | none => simp [dayKeyOf, hd] at hde
      | some d0 =>
        simp only [dayKeyOf, hd, Option.some.injEq, Prod.mk.injEq] at hde
        obtain ⟨h1, h2⟩ := hde
        simp [keyOf, hd, h1]
    · rintro ⟨e, he, hke⟩
      cases hd : e.date with
      | none => simp [keyOf, hd] at hke
      | some d0 =>
        simp only [keyOf, hd, Option.map_some', Option.some.injEq] at hke
        refine ⟨(k, d0), ?_, rfl⟩
        rw [dailyKeys, List.mem_dedup, List.mem_filterMap]
        refine ⟨e, he, ?_⟩
        simp [dayKeyOf, hd, hke]
  refine ⟨hnodup, hmem, ?_⟩
  by_cases h : ∃ e ∈ es, keyOf e = some k
  · rw [if_pos h]
    exact List.count_eq_one_of_mem hnodup (hmem.mpr h)
  · rw [if_neg h]
    exact List.count_eq_zero_of_not_mem (fun hc => h (hmem.mp hc))

/-- C10: a week whose rows all carry pay codes other than "regular" and
"overtime" still has its report row (its key is in the pivot index), but
the left merge finds no `weekly_agg` row for it, so all five weekly
columns are missing and render as empty strings. -/
theorem other_coded_week_null_fields (es : List Entry) (k : Key)
    (hrow : k ∈ reportKeys es)
    (hother : ∀ e ∈ entriesFor k es, e.payCode ≠ "regular" ∧ e.payCode ≠ "overtime") :
    k ∈ reportKeys es ∧ weeklyFields k es = none ∧
    renderWeekly (weeklyFields k es) = ["", "", "", "", ""] := by
  have hfalse : hasRegOrOT k es = false := by
    rw [hasRegOrOT, List.any_eq_false]
    intro e he
    obtain ⟨h1, h2⟩ := hother e he
    simp [h1, h2]
  have hnone : weeklyFields k es = none := by
    simp [weeklyFields, hfalse]
  exact ⟨hrow, hnone, by rw [hnone]; rfl⟩

/-- C10 witness: the "holiday"-only sample week keeps its report row and
all five weekly columns are missing/blank. -/
theorem other_coded_week_null_fields_witness :
    kW ∈ reportKeys [eHol] ∧ weeklyFields kW [eHol] = none ∧
    renderWeekly (weeklyFields kW [eHol]) = ["", "", "", "", ""] :=
  other_coded_week_null_fields [eHol] kW (by decide) (by decide)

/-- C8: the final columns are exactly EmpID, Location, Week Start, the
seven weekday columns Sunday..Saturday in that order, then the five
weekly columns; every rendered row has all fifteen cells in that order,
and a weekday on which the employee-week has no entries renders as the
empty string rather than being absent. -/
theorem report_row_shape :
    final_cols =
      ["EmpID", "Location", "Week Start", "Sunday", "Monday", "Tuesday",
        "Wednesday", "Thursday", "Friday", "Saturday", "Weekly Regular Hours",
        "Weekly OT Paid", "Weekly Total Hours", "Weekly Proj OT",
        "Overtime Owed"] ∧
    ∀ (es : List Entry) (k : Key),
      (reportRow k es).length = final_cols.length ∧
      reportRow k es =
        [k.empId, k.location, fmtDateISO k.weekStart,
          (pivotCell k es "Sunday").getD "", (pivotCell k es "Monday").getD "",
          (pivotCell k es "Tuesday").getD "", (pivotCell k es "Wednesday").getD "",
          (pivotCell k es "Thursday").getD "", (pivotCell k es "Friday").getD "",
          (pivotCell k es "Saturday").getD ""] ++
          renderWeekly (weeklyFields k es) ∧
      ∀ c, (∀ d ∈ daysOf k es, dayName d ≠ c) →
        (pivotCell k es c).getD "" = "" := by
  refine ⟨rfl, fun es k => ⟨?_, ?_, ?_⟩⟩
  · rcases h : weeklyFields k es with _ | ⟨a, b, c, d, e⟩ <;>
      simp [reportRow, renderWeekly, day_order, final_cols, h]
  · rfl
  · intro c hc
    have hnone : (daysOf k es).find? (fun d => decide (dayName d = c)) = none := by
      rw [List.find?_eq_none]
      intro d hd
      simpa using hc d hd
    simp [pivotCell, hnone]

/-- C8 witness: in the sample week with a single Tuesday entry, the Monday
column renders as the empty string. -/
theorem report_row_shape_witness : (pivotCell kW [eReg] "Monday").getD "" = "" :=
  (report_row_shape.2 [eReg] kW).2.2 "Monday" (by decide)

/-! Substitution lemmas: replacing one row by another that agrees on the
fields a grouped computation reads leaves that computation unchanged, and
a row that fails the grouping filter can be removed. -/

theorem map_filter_subst {α : Type} (pre post : List Entry) (e e' : Entry)
    (p : Entry → Bool) (f : Entry → α) (hp : p e' = p e) (hf : f e' = f e) :
    ((pre ++ e' :: post).filter p).map f = ((pre ++ e :: post).filter p).map f := by
  cases h : p e with
  | true => simp [List.filter_append, List.filter_cons, h, hp, hf]
  | false => simp [List.filter_append, List.filter_cons, h, hp]

theorem filterMap_filter_subst {α : Type} (pre post : List Entry) (e e' : Entry)
    (p : Entry → Bool) (f : Entry → Option α) (hp : p e' = p e) (hf : f e' = f e) :
    ((pre ++ e' :: post).filter p).filterMap f =
      ((pre ++ e :: post).filter p).filterMap f := by
  cases h : p e with
  | true =>
    simp [List.filter_append, List.filter_cons, h, hp, List.filterMap_append,
      List.filterMap_cons, hf]
  | false => simp [List.filter_append, List.filter_cons, h, hp]

theorem filterMap_subst {α : Type} (pre post : List Entry) (e e' : Entry)
    (g : Entry → Option α) (hg : g e' = g e) :
    (pre ++ e' :: post).filterMap g = (pre ++ e :: post).filterMap g := by
  simp [List.filterMap_append, List.filterMap_cons, hg]

theorem filter_remove (pre post : List Entry) (e : Entry) (p : Entry → Bool)
    (hp : p e = false) :
    (pre ++ e :: post).filter p = (pre ++ post).filter p := by
  simp [List.filter_append, List.filter_cons, hp]

theorem filterMap_remove {α : Type} (pre post : List Entry) (e : Entry)
    (g : Entry → Option α) (hg : g e = none) :
    (pre ++ e :: post).filterMap g = (pre ++ post).filterMap g := by
  simp [List.filterMap_append, List.filterMap_cons, hg]

/-- C5: a row whose Hours is missing contributes 0 to every daily and
weekly sum — replacing its missing Hours by 0 changes no aggregate and no
table key set — and, when its date parses, its day is still present in
the daily table; whereas a row whose Date is missing is dropped from
every group, so every aggregate equals that of the input without the row,
and it carries no week key at all. -/
theorem missing_values_handling (pre post : List Entry) (e : Entry) :
    (e.hours = none →
      (∀ k d, Total_Hours k d (pre ++ e :: post) =
        Total_Hours k d (pre ++ {e with hours := some 0} :: post)) ∧
      (∀ k d, Reg k d (pre ++ e :: post) =
        Reg k d (pre ++ {e with hours := some 0} :: post)) ∧
      (∀ k d, OT_Paid k d (pre ++ e :: post) =
        OT_Paid k d (pre ++ {e with hours := some 0} :: post)) ∧
      (∀ k, weeklyRegularHours k (pre ++ e :: post) =
        weeklyRegularHours k (pre ++ {e with hours := some 0} :: post)) ∧
      (∀ k, weeklyOTPaid k (pre ++ e :: post) =
        weeklyOTPaid k (pre ++ {e with hours := some 0} :: post)) ∧
      (∀ k, weeklyTotalHours k (pre ++ e :: post) =
        weeklyTotalHours k (pre ++ {e with hours := some 0} :: post)) ∧
      (∀ k, weeklyProjOT k (pre ++ e :: post) =
        weeklyProjOT k (pre ++ {e with hours := some 0} :: post)) ∧
      (∀ k, overtimeOwed k (pre ++ e :: post) =
        overtimeOwed k (pre ++ {e with hours := some 0} :: post)) ∧
      dailyKeys (pre ++ e :: post) =
        dailyKeys (pre ++ {e with hours := some 0} :: post) ∧
      reportKeys (pre ++ e :: post) =
        reportKeys (pre ++ {e with hours := some 0} :: post) ∧
      (∀ d, e.date = some d →
        (⟨e.location, e.empId, weekStart d⟩, d) ∈ dailyKeys (pre ++ e :: post))) ∧
    (e.date = none →
      (∀ k, entriesFor k (pre ++ e :: post) = entriesFor k (pre ++ post)) ∧
      (∀ k d, entriesOn k d (pre ++ e :: post) = entriesOn k d (pre ++ post)) ∧
      dailyKeys (pre ++ e :: post) = dailyKeys (pre ++ post) ∧
      reportKeys (pre ++ e :: post) = reportKeys (pre ++ post) ∧
      keyOf e = none) := by
  constructor
  · intro he
    have hgetD : (fun x : Entry => x.hours.getD 0) ({e with hours := some 0}) =
        (fun x : Entry => x.hours.getD 0) e := by
      simp [he]
    have hsum : ∀ p : Entry → Bool, p ({e with hours := some 0}) = p e →
        sumHours ((pre ++ e :: post).filter p) =
          sumHours ((pre ++ {e with hours := some 0} :: post).filter p) := by
      intro p hp
      unfold sumHours
      rw [map_filter_subst pre post e ({e with hours := some 0}) p _ hp hgetD]
    have hTH : ∀ k d, Total_Hours k d (pre ++ e :: post) =
        Total_Hours k d (pre ++ {e with hours := some 0} :: post) := by
      intro k d
      unfold Total_Hours entriesOn
      exact hsum _ rfl
    have hReg : ∀ k d, Reg k d (pre ++ e :: post) =
        Reg k d (pre ++ {e with hours := some 0} :: post) := by
      intro k d
      unfold Reg entriesOn
      rw [List.filter_filter, List.filter_filter]
      exact hsum _ rfl
    have hOT : ∀ k d, OT_Paid k d (pre ++ e :: post) =
        OT_Paid k d (pre ++ {e with hours := some 0} :: post) := by
      intro k d
      unfold OT_Paid entriesOn
      rw [List.filter_filter, List.filter_filter]
      exact hsum _ rfl
    have hWReg : ∀ k, weeklyRegularHours k (pre ++ e :: post) =
        weeklyRegularHours k (pre ++ {e with hours := some 0} :: post) := by
      intro k
      unfold weeklyRegularHours entriesFor
      rw [List.filter_filter, List.filter_filter]
      exact hsum _ rfl
    have hWOT : ∀ k, weeklyOTPaid k (pre ++ e :: post) =
        weeklyOTPaid k (pre ++ {e with hours := some 0} :: post) := by
      intro k
      unfold weeklyOTPaid entriesFor
      rw [List.filter_filter, List.filter_filter]
      exact hsum _ rfl
    have hWTot : ∀ k, weeklyTotalHours k (pre ++ e :: post) =
        weeklyTotalHours k (pre ++ {e with hours := some 0} :: post) := by
      intro k
      unfold weeklyTotalHours
      rw [hWReg k, hWOT k]
    have hSched : ∀ k, Sched_Reg k (pre ++ e :: post) =
        Sched_Reg k (pre ++ {e with hours := some 0} :: post) := by
      intro k
      have hv := filterMap_filter_subst pre post e ({e with hours := some 0})
        (fun x => decide (keyOf x = some k)) (fun x => x.regularHours) rfl rfl
      simp only [Sched_Reg, entriesFor]
      rw [hv]
    have hDays : ∀ k, daysOf k (pre ++ e :: post) =
        daysOf k (pre ++ {e with hours := some 0} :: post) := by
      intro k
      have hv := filterMap_filter_subst pre post e ({e with hours := some 0})
        (fun x => decide (keyOf x = some k)) (fun x => x.date) rfl rfl
      unfold daysOf entriesFor
      rw [hv]
    have hProj : ∀ k d, Proj_OT k d (pre ++ e :: post) =
        Proj_OT k d (pre ++ {e with hours := some 0} :: post) := by
      intro k d
      unfold Proj_OT
      rw [hSched k, hTH k d]
    have hWProj : ∀ k, weeklyProjOT k (pre ++ e :: post) =
        weeklyProjOT k (pre ++ {e with hours := some 0} :: post) := by
      intro k
      unfold weeklyProjOT
      rw [hDays k, funext (fun d => hProj k d)]
    have hDaily : dailyKeys (pre ++ e :: post) =
        dailyKeys (pre ++ {e with hours := some 0} :: post) := by
      unfold dailyKeys
      rw [filterMap_subst pre post e ({e with hours := some 0}) dayKeyOf rfl]
    refine ⟨hTH, hReg, hOT, hWReg, hWOT, hWTot, hWProj, ?_, hDaily, ?_, ?_⟩
    · intro k
      unfold overtimeOwed
      rw [hWTot k, hWOT k, hWProj k]
    · unfold reportKeys
      rw [hDaily]
    · intro d hd
      rw [dailyKeys, List.mem_dedup, List.mem_filterMap]
      refine ⟨e, List.mem_append_right pre (List.mem_cons_self e post), ?_⟩
      rw [dayKeyOf, hd]
  · intro hd
    have hk : keyOf e = none := by simp [keyOf, hd]
    have hdk : dayKeyOf e = none := by rw [dayKeyOf, hd]
    have hDaily : dailyKeys (pre ++ e :: post) = dailyKeys (pre ++ post) := by
      unfold dailyKeys
      rw [filterMap_remove pre post e dayKeyOf hdk]
    refine ⟨?_, ?_, hDaily, ?_, hk⟩
    · intro k
      unfold entriesFor
      exact filter_remove pre post e _ (by simp [hk])
    · intro k d
      unfold entriesOn
      exact filter_remove pre post e _ (by simp [hk])
    · unfold reportKeys
      rw [hDaily]

/-- C5 witness: a missing-Hours row in a concrete two-row input leaves the
day total unchanged when its Hours is replaced by 0 and keeps its day in
the daily table, and a missing-Date row leaves the daily key set of a
concrete input unchanged. -/
theorem missing_values_handling_witness :
    Total_Hours kW 10 [eNA, eReg] =
      Total_Hours kW 10 [{eNA with hours := some 0}, eReg] ∧
    (⟨eNA.location, eNA.empId, weekStart 10⟩, 10) ∈ dailyKeys [eNA, eReg] ∧
    dailyKeys [eNoDate, eReg] = dailyKeys [eReg] := by
  refine ⟨?_, ?_, ?_⟩
  · exact ((missing_values_handling [] [eReg] eNA).1 rfl).1 kW 10
  · exact ((missing_values_handling [] [eReg] eNA).1 rfl).2.2.2.2.2.2.2.2.2.2 10 rfl
  · exact ((missing_values_handling [] [eReg] eNoDate).2 rfl).2.2.1
